import Mathlib

/-!
Shallow embedding of the Kakeibo transaction ledger (src/app.py) and proofs
about its specified behaviour.

The MySQL `transacoes` table is modelled as a `List Transaction` (rows in
storage order); the `configuracoes` settings values are modelled as
`Option (List Char)` (a nullable string, at character level, so that the
comma split/join performed by the handlers can be reasoned about exactly).
SQL `ORDER BY data DESC` is modelled by `insertionSort` with the
corresponding comparison, `SUM(...)` by an `Option Int` that is `none` on an
empty row set
(SQL NULL), and the Python status/colour branches of `get_calendar_events`
are transcribed as written, including the loop-carried `event_color`
variable (an `Option String` that starts out unbound).
-/

namespace Kakeibo

/-- Calendar date, compared lexicographically (year, month, day), matching
the ordering MySQL uses for DATE columns. -/
structure Date where
  year : Nat
  month : Nat
  day : Nat
deriving DecidableEq, Repr

/-- Strict `<` on dates, as used by the comparison of the row date with today. -/
def dateLt (a b : Date) : Bool :=
  decide (a.year < b.year ∨
    (a.year = b.year ∧ (a.month < b.month ∨ (a.month = b.month ∧ a.day < b.day))))

/-- One row of the `transacoes` table. Field names follow the source
(Portuguese): `tipo` is the kind (`"receita"` = income, `"despesa"` =
expense), `valor` the amount, `pago` the paid flag (tinyint 0/1 in MySQL,
modelled as `Bool`). -/
structure Transaction where
  id : Nat
  data : Date
  valor : Int
  tipo : String
  categoria : String
  descricao : String
  forma_pagamento : String
  pago : Bool
deriving DecidableEq, Repr

/-- The four display statuses produced by the branch structure of
`get_calendar_events` (lines 201-212 of src/app.py). -/
inductive Status where
  | Income
  | Paid
  | Overdue
  | Due
deriving DecidableEq, Repr

/-- Status classifier, transcribed from the branches of
`get_calendar_events`: income first, then paid, then date-overdue, else due.
A `tipo` outside the closed set {receita, despesa} hits no branch, hence
`none`. -/
def classify (t : Transaction) (today : Date) : Option Status :=
  if t.tipo = "receita" then some Status.Income
  else if t.tipo = "despesa" then
    if t.pago then some Status.Paid
    else if dateLt t.data today then some Status.Overdue
    else some Status.Due
  else none

/-- The month filter `YEAR(data) = y AND MONTH(data) = m` of the SQL
queries. -/
def inMonth (y m : Nat) (t : Transaction) : Bool :=
  t.data.year == y && t.data.month == m

/-- SQL `SUM(valor)` over a row set: `NULL` (here `none`) when the set is
empty, otherwise the sum. -/
def sqlSumValor (rows : List Transaction) : Option Int :=
  match rows with
  | [] => none
  | _ => some ((rows.map (fun t => t.valor)).sum)

/-- Embedding of `get_total_by_type` (src/app.py lines 153-160): sum of `valor` over the
rows of the month with the given `tipo`; the Python
`int(result[0]) if result[0] else 0` maps both SQL NULL and a zero sum
to the integer 0. -/
def get_total_by_type (db : List Transaction) (y m : Nat) (k : String) : Int :=
  match sqlSumValor (db.filter (fun t => inMonth y m t && t.tipo == k)) with
  | none => 0
  | some s => if s = 0 then 0 else s

/-- Outcome of a form submission handler. -/
inductive FormResult where
  | success
  | validationError
deriving DecidableEq, Repr

/-- Embedding of `update_transaction` (src/app.py lines 96-110): a single SQL UPDATE that
replaces every mutable field of the row whose `id` matches and then reports
`True` — regardless of whether any row matched. -/
def update_transaction (db : List Transaction) (id : Nat) (d : Date)
    (valor : Int) (tipo categoria descricao forma_pagamento : String)
    (pago : Bool) : List Transaction × Bool :=
  (db.map (fun t =>
    if t.id = id then
      ⟨t.id, d, valor, tipo, categoria, descricao, forma_pagamento, pago⟩
    else t), true)

/-- Embedding of `insert_transaction` guarded by the submit handler (src/app.py lines
340-347): the handler warns and does not insert when `valor <= 0`, otherwise
the row is appended with the next id. -/
def submit_new_transaction (db : List Transaction) (nextId : Nat) (d : Date)
    (valor : Int) (tipo categoria descricao forma_pagamento : String)
    (pago : Bool) : List Transaction × FormResult :=
  if valor ≤ 0 then (db, FormResult.validationError)
  else (db ++ [⟨nextId, d, valor, tipo, categoria, descricao, forma_pagamento, pago⟩],
        FormResult.success)

/-- Embedding of `update_transaction` guarded by the edit-form save handler (src/app.py
lines 480-487): the handler warns and does not update when `valor <= 0`. -/
def save_edited_transaction (db : List Transaction) (id : Nat) (d : Date)
    (valor : Int) (tipo categoria descricao forma_pagamento : String)
    (pago : Bool) : List Transaction × FormResult :=
  if valor ≤ 0 then (db, FormResult.validationError)
  else ((update_transaction db id d valor tipo categoria descricao forma_pagamento pago).1,
        FormResult.success)

/-- Embedding of `mark_transaction_as_paid` (src/app.py lines 112-126): SQL
`UPDATE transacoes SET pago = 1 WHERE id = %s`, reporting `True`. -/
def mark_transaction_as_paid (db : List Transaction) (id : Nat) :
    List Transaction × Bool :=
  (db.map (fun t =>
    if t.id = id then
      ⟨t.id, t.data, t.valor, t.tipo, t.categoria, t.descricao, t.forma_pagamento, true⟩
    else t), true)

/-- Sample expense row used to instantiate proved theorems on concrete
input (the scenario of spec.md section 8). -/
def sampleExpense : Transaction :=
  ⟨1, ⟨2024, 6, 1⟩, 5000, "despesa", "food", "", "cash", false⟩

/-- Sample income row used to instantiate proved theorems on concrete
input (the scenario of spec.md section 8). -/
def sampleIncome : Transaction :=
  ⟨2, ⟨2024, 6, 15⟩, 2000, "receita", "salary", "", "bank", false⟩

/-- C1: the classifier evaluates its rules in order — income wins outright,
then paid, then `date < today`, else due — and, being a Lean function, is
pure and deterministic in `(transaction, today)`. Stated for the closed
kind set {receita, despesa} of the data model. -/
theorem classify_rules (t : Transaction) (today : Date)
    (h : t.tipo = "receita" ∨ t.tipo = "despesa") :
    classify t today =
      some (if t.tipo = "receita" then Status.Income
            else if t.pago then Status.Paid
            else if dateLt t.data today then Status.Overdue
            else Status.Due) := by
  rcases h with h | h <;> simp [classify, h, apply_ite some]

/-- Witness for C1: the sample unpaid expense dated 2024-06-01 is Overdue
on 2024-06-20. -/
theorem classify_rules_witness :
    classify sampleExpense ⟨2024, 6, 20⟩ = some Status.Overdue := by
  rw [classify_rules sampleExpense ⟨2024, 6, 20⟩ (Or.inr rfl)]
  rfl

theorem get_total_eq_filtered_sum (db : List Transaction) (y m : Nat) (k : String) :
    get_total_by_type db y m k =
      ((db.filter (fun t => inMonth y m t && t.tipo == k)).map (fun t => t.valor)).sum := by
  unfold get_total_by_type sqlSumValor
  cases hf : db.filter (fun t => inMonth y m t && t.tipo == k) with
  | nil => simp
  | cons a l =>
    simp only []
    split <;> omega

/-- C2: `get_total_by_type` equals the sum of `valor` over the rows of the month
of the requested kind, and is the integer 0 (not an absent value) when no
row matches. -/
theorem total_by_type_correct (db : List Transaction) (y m : Nat) (k : String) :
    get_total_by_type db y m k =
      ((db.filter (fun t => inMonth y m t && t.tipo == k)).map (fun t => t.valor)).sum ∧
    (db.filter (fun t => inMonth y m t && t.tipo == k) = [] →
      get_total_by_type db y m k = 0) := by
  refine ⟨get_total_eq_filtered_sum db y m k, fun h => ?_⟩
  rw [get_total_eq_filtered_sum db y m k, h]
  rfl

/-- Witness for C2: on the two sample rows, the June 2024 expense total is
5000 and matches the filtered sum; an empty store yields 0. -/
theorem total_by_type_correct_witness :
    get_total_by_type [sampleExpense, sampleIncome] 2024 6 "despesa" =
      (([sampleExpense, sampleIncome].filter
          (fun t => inMonth 2024 6 t && t.tipo == "despesa")).map (fun t => t.valor)).sum ∧
    get_total_by_type [sampleExpense, sampleIncome] 2024 6 "despesa" = 5000 ∧
    get_total_by_type [] 2024 6 "despesa" = 0 :=
  ⟨(total_by_type_correct [sampleExpense, sampleIncome] 2024 6 "despesa").1,
   by decide,
   (total_by_type_correct [] 2024 6 "despesa").2 rfl⟩

/-- C3: a non-positive amount makes both the create handler and the edit
handler report a validation error and leave the stored rows untouched. -/
theorem nonpositive_amount_rejected (db : List Transaction) (nid : Nat)
    (d : Date) (valor : Int) (tipo categoria descricao forma_pagamento : String)
    (pago : Bool) (h : valor ≤ 0) :
    submit_new_transaction db nid d valor tipo categoria descricao forma_pagamento pago
        = (db, FormResult.validationError) ∧
    save_edited_transaction db nid d valor tipo categoria descricao forma_pagamento pago
        = (db, FormResult.validationError) := by
  constructor <;> simp [submit_new_transaction, save_edited_transaction, h]

/-- Witness for C3: amount 0 is rejected by both handlers on the sample
store. -/
theorem nonpositive_amount_rejected_witness :
    submit_new_transaction [sampleExpense] 1 ⟨2024, 6, 3⟩ 0 "despesa" "food" "" "cash" false
        = ([sampleExpense], FormResult.validationError) ∧
    save_edited_transaction [sampleExpense] 1 ⟨2024, 6, 3⟩ 0 "despesa" "food" "" "cash" false
        = ([sampleExpense], FormResult.validationError) :=
  nonpositive_amount_rejected [sampleExpense] 1 ⟨2024, 6, 3⟩ 0 "despesa" "food" "" "cash" false
    (by decide)

/-- SQL `ORDER BY data DESC`: a row comes before another when its date is
not smaller. -/
def sortByDateDesc (db : List Transaction) : List Transaction :=
  List.insertionSort (fun a b => dateLt a.data b.data = false) db

/-- Embedding of `get_paginated_transactions` (src/app.py lines 162-175): total row
count plus the window `LIMIT page_size OFFSET (page_number - 1) * page_size`
of the date-descending ordering. -/
def get_paginated_transactions (db : List Transaction) (page_number : Nat)
    (page_size : Nat := 10) : List Transaction × Nat :=
  let offset := (page_number - 1) * page_size
  (((sortByDateDesc db).drop offset).take page_size, db.length)

/-- Page count as computed on src/app.py line 432:
`(total_records + 9) // 10`. -/
def total_pages (total_records : Nat) : Nat :=
  (total_records + 9) / 10

theorem take_chunk_add {α : Type} (l : List α) (m n : Nat) :
    l.take m ++ (l.drop m).take n = l.take (m + n) := by
  rw [List.take_drop]
  calc l.take m ++ (l.take (m + n)).drop m
      = (l.take (m + n)).take m ++ (l.take (m + n)).drop m := by
        rw [List.take_take, Nat.min_def]
        split <;> simp_all
    _ = l.take (m + n) := List.take_append_drop m _

theorem flatten_chunks {α : Type} (l : List α) (n : Nat) (k : Nat) :
    ((List.range k).map (fun i => (l.drop (i * n)).take n)).flatten
      = l.take (k * n) := by
  induction k with
  | zero => simp
  | succ k ih =>
    rw [List.range_succ, List.map_append, List.flatten_append]
    simp only [List.map_cons, List.map_nil, List.flatten_cons, List.flatten_nil,
      List.append_nil]
    rw [ih, take_chunk_add, Nat.succ_mul]

/-- C4: concatenating the record windows of pages 1 .. totalPages, in
order, reproduces the full date-descending ordering exactly — which is
itself a permutation of the stored rows, so no row is duplicated or
dropped. -/
theorem pagination_reconstructs (db : List Transaction) :
    ((List.range (total_pages db.length)).map
        (fun i => (get_paginated_transactions db (i + 1) 10).1)).flatten
      = sortByDateDesc db ∧
    (sortByDateDesc db).Perm db := by
  constructor
  · have hlen : (sortByDateDesc db).length = db.length :=
      List.length_insertionSort _ db
    simp only [get_paginated_transactions, Nat.add_sub_cancel]
    rw [flatten_chunks]
    apply List.take_of_length_le
    rw [hlen]
    unfold total_pages
    omega
  · exact List.perm_insertionSort _ db

/-- C8: markPaid keeps the shape of the store, reports success, sets `pago` on
every row whose id matches — whatever its kind and previous paid flag —
while leaving all its other fields, and every non-matching row, exactly as
they were. -/
theorem mark_paid_spec (db : List Transaction) (id : Nat) (i : Nat)
    (t : Transaction) (h : db[i]? = some t) :
    (mark_transaction_as_paid db id).2 = true ∧
    (mark_transaction_as_paid db id).1.length = db.length ∧
    ∃ t2, (mark_transaction_as_paid db id).1[i]? = some t2 ∧
      t2.id = t.id ∧ t2.data = t.data ∧ t2.valor = t.valor ∧ t2.tipo = t.tipo ∧
      t2.categoria = t.categoria ∧ t2.descricao = t.descricao ∧
      t2.forma_pagamento = t.forma_pagamento ∧
      (t.id = id → t2.pago = true) ∧ (t.id ≠ id → t2 = t) := by
  refine ⟨rfl, by simp [mark_transaction_as_paid], ?_⟩
  refine ⟨if t.id = id then
      ⟨t.id, t.data, t.valor, t.tipo, t.categoria, t.descricao, t.forma_pagamento, true⟩
    else t, ?_, ?_⟩
  · simp only [mark_transaction_as_paid, List.getElem?_map, h]
    rfl
  · by_cases hid : t.id = id <;> simp [hid]

/-- Witness for C8: marking id 1 paid in the sample store flips the
paid flag of the expense and leaves everything else alone. -/
theorem mark_paid_spec_witness :
    (mark_transaction_as_paid [sampleExpense, sampleIncome] 1).2 = true ∧
    (mark_transaction_as_paid [sampleExpense, sampleIncome] 1).1.length = 2 ∧
    ∃ t2, (mark_transaction_as_paid [sampleExpense, sampleIncome] 1).1[0]? = some t2 ∧
      t2.id = sampleExpense.id ∧ t2.data = sampleExpense.data ∧
      t2.valor = sampleExpense.valor ∧ t2.tipo = sampleExpense.tipo ∧
      t2.categoria = sampleExpense.categoria ∧ t2.descricao = sampleExpense.descricao ∧
      t2.forma_pagamento = sampleExpense.forma_pagamento ∧
      (sampleExpense.id = 1 → t2.pago = true) ∧ (sampleExpense.id ≠ 1 → t2 = sampleExpense) :=
  mark_paid_spec [sampleExpense, sampleIncome] 1 0 sampleExpense rfl

/-- C6 (code defect): the `update_transaction` of the code reports success even
when no stored row carries the requested id — here, id 1 against an empty
store — instead of failing with the NotFoundError the contract asks for. -/
theorem update_missing_id_reports_success :
    update_transaction [] 1 ⟨2024, 6, 1⟩ 5000 "despesa" "food" "" "cash" false
      = ([], true) := rfl

/-- Embedding of `get_expenses_by_category` (src/app.py lines 177-190): the monthly
expense rows, grouped by `categoria` with `SUM(valor)` per group, ordered
by total descending. -/
def get_expenses_by_category (db : List Transaction) (y m : Nat) :
    List (String × Int) :=
  let rows := db.filter (fun t => inMonth y m t && t.tipo == "despesa")
  List.insertionSort (fun a b => b.2 ≤ a.2)
    (((rows.map (fun t => t.categoria)).dedup).map
      (fun c => (c, ((rows.filter (fun t => t.categoria == c)).map
        (fun t => t.valor)).sum)))

theorem sum_map_add_pointwise {κ : Type} (ks : List κ) (f g : κ → Int) :
    (ks.map (fun c => f c + g c)).sum = (ks.map f).sum + (ks.map g).sum := by
  induction ks with
  | nil => simp
  | cons a t ih =>
    simp only [List.map_cons, List.sum_cons, ih]
    omega

theorem sum_map_indicator {κ : Type} [BEq κ] [LawfulBEq κ] (ks : List κ)
    (hn : ks.Nodup) (k : κ) (hk : k ∈ ks) (v : Int) :
    (ks.map (fun c => if k == c then v else 0)).sum = v := by
  induction ks with
  | nil => cases hk
  | cons a t ih =>
    rcases List.mem_cons.mp hk with h | h
    · subst h
      have hnot : k ∉ t := (List.nodup_cons.mp hn).1
      have hzero : (t.map (fun c => if k == c then v else 0)).sum = 0 := by
        apply List.sum_eq_zero
        intro x hx
        rcases List.mem_map.mp hx with ⟨c, hc, hcx⟩
        have hne : k ≠ c := fun hEq => hnot (hEq ▸ hc)
        simpa [hne] using hcx.symm
      simp [hzero]
    · have hka : k ≠ a := fun hEq => (List.nodup_cons.mp hn).1 (hEq ▸ h)
      simp [hka, ih (List.nodup_cons.mp hn).2 h]

theorem sum_grouped (rows : List Transaction) :
    (((rows.map (fun t => t.categoria)).dedup).map
      (fun c => ((rows.filter (fun t => t.categoria == c)).map (fun t => t.valor)).sum)).sum
    = (rows.map (fun t => t.valor)).sum := by
  induction rows with
  | nil => simp
  | cons a rs ih =>
    have hsplit : ∀ c : String,
        ((List.filter (fun t => t.categoria == c) (a :: rs)).map (fun t => t.valor)).sum
        = (if a.categoria == c then a.valor else 0)
          + ((List.filter (fun t => t.categoria == c) rs).map (fun t => t.valor)).sum := by
      intro c
      by_cases hc : a.categoria = c
      · simp [List.filter_cons, hc]
      · simp [List.filter_cons, hc]
    by_cases hmem : a.categoria ∈ rs.map (fun t => t.categoria)
    · rw [List.map_cons, List.dedup_cons_of_mem hmem]
      simp only [hsplit]
      rw [sum_map_add_pointwise, sum_map_indicator _ (List.nodup_dedup _) _
        (List.mem_dedup.mpr hmem) _, ih]
      simp only [List.map_cons, List.sum_cons]
    · rw [List.map_cons, List.dedup_cons_of_not_mem hmem, List.map_cons, List.sum_cons]
      have hhead : ((List.filter (fun t => t.categoria == a.categoria) (a :: rs)).map
          (fun t => t.valor)).sum = a.valor := by
        rw [hsplit]
        have hnil : List.filter (fun t => t.categoria == a.categoria) rs = [] := by
          rw [List.filter_eq_nil_iff]
          intro x hx
          simp only [beq_iff_eq]
          intro hEq
          exact hmem (List.mem_map.mpr ⟨x, hx, hEq⟩)
        simp [hnil]
      have htail : ((rs.map (fun t => t.categoria)).dedup).map
            (fun c => ((List.filter (fun t => t.categoria == c) (a :: rs)).map
              (fun t => t.valor)).sum)
          = ((rs.map (fun t => t.categoria)).dedup).map
            (fun c => ((List.filter (fun t => t.categoria == c) rs).map
              (fun t => t.valor)).sum) := by
        apply List.map_congr_left
        intro c hc
        rw [hsplit]
        have hne : a.categoria ≠ c := fun hEq => hmem (hEq ▸ List.mem_dedup.mp hc)
        simp [hne]
      rw [hhead, htail, ih]
      simp only [List.map_cons, List.sum_cons]

/-- C5: every pair returned by `get_expenses_by_category` stems from an
expense row of the month (never an income row), categories appear exactly
once each, totals are ordered descending, and the totals add up to
`get_total_by_type` for expenses. -/
theorem expenses_by_category_correct (db : List Transaction) (y m : Nat) :
    (∀ p ∈ get_expenses_by_category db y m, ∃ t ∈ db,
        t.tipo = "despesa" ∧ t.data.year = y ∧ t.data.month = m ∧ t.categoria = p.1) ∧
    ((get_expenses_by_category db y m).map Prod.fst).Nodup ∧
    (get_expenses_by_category db y m).Pairwise (fun a b => b.2 ≤ a.2) ∧
    ((get_expenses_by_category db y m).map Prod.snd).sum
      = get_total_by_type db y m "despesa" := by
  have hperm : (get_expenses_by_category db y m).Perm
      (((db.filter (fun t => inMonth y m t && t.tipo == "despesa")).map
          (fun t => t.categoria)).dedup.map
        (fun c => (c, (((db.filter (fun t => inMonth y m t && t.tipo == "despesa")).filter
            (fun t => t.categoria == c)).map (fun t => t.valor)).sum))) :=
    List.perm_insertionSort _ _
  refine ⟨?_, ?_, ?_, ?_⟩
  · intro p hp
    have hp2 := hperm.mem_iff.mp hp
    rcases List.mem_map.mp hp2 with ⟨c, hc, hcp⟩
    rcases List.mem_map.mp (List.mem_dedup.mp hc) with ⟨t, ht, htc⟩
    rcases List.mem_filter.mp ht with ⟨htdb, hpred⟩
    refine ⟨t, htdb, ?_, ?_, ?_, ?_⟩ <;>
      simp only [inMonth, Bool.and_eq_true, beq_iff_eq] at hpred <;>
      first
        | exact hpred.2
        | exact hpred.1.1
        | exact hpred.1.2
        | rw [← hcp] at *
          exact htc
  · have := (hperm.map Prod.fst).nodup_iff
    rw [this]
    simp only [List.map_map]
    have : (Prod.fst ∘ fun c => (c,
        (((db.filter (fun t => inMonth y m t && t.tipo == "despesa")).filter
          (fun t => t.categoria == c)).map (fun t => t.valor)).sum)) = id := rfl
    rw [this, List.map_id]
    exact List.nodup_dedup _
  · haveI htot : IsTotal (String × Int) (fun a b => b.2 ≤ a.2) :=
      ⟨fun a b => le_total b.2 a.2⟩
    haveI htr : IsTrans (String × Int) (fun a b => b.2 ≤ a.2) :=
      ⟨fun a b c hab hbc => le_trans hbc hab⟩
    exact List.sorted_insertionSort (fun a b => b.2 ≤ a.2)
      (((db.filter (fun t => inMonth y m t && t.tipo == "despesa")).map
          (fun t => t.categoria)).dedup.map
        (fun c => (c, (((db.filter (fun t => inMonth y m t && t.tipo == "despesa")).filter
            (fun t => t.categoria == c)).map (fun t => t.valor)).sum)))
  · have hsum : ((get_expenses_by_category db y m).map Prod.snd).sum
        = ((((db.filter (fun t => inMonth y m t && t.tipo == "despesa")).map
            (fun t => t.categoria)).dedup.map
          (fun c => (c, (((db.filter (fun t => inMonth y m t && t.tipo == "despesa")).filter
              (fun t => t.categoria == c)).map (fun t => t.valor)).sum))).map Prod.snd).sum :=
      (hperm.map Prod.snd).sum_eq
    rw [hsum, List.map_map]
    have hcomp : (Prod.snd ∘ fun c => (c,
        (((db.filter (fun t => inMonth y m t && t.tipo == "despesa")).filter
          (fun t => t.categoria == c)).map (fun t => t.valor)).sum))
        = fun c => (((db.filter (fun t => inMonth y m t && t.tipo == "despesa")).filter
          (fun t => t.categoria == c)).map (fun t => t.valor)).sum := rfl
    rw [hcomp, sum_grouped, get_total_eq_filtered_sum]

/-- Python string split on the comma character, at character level: always returns at least one
(possibly empty) part. -/
def splitComma : List Char → List (List Char)
  | [] => [[]]
  | c :: rest =>
    if c = ',' then [] :: splitComma rest
    else
      match splitComma rest with
      | [] => [[c]]
      | p :: ps => (c :: p) :: ps

/-- Python comma join of parts, at character level. -/
def joinComma : List (List Char) → List Char
  | [] => []
  | [x] => x
  | x :: y :: ys => x ++ ',' :: joinComma (y :: ys)

/-- The label list the app reads from a raw settings value:
`raw.split(',') if raw else []` (src/app.py lines 326-332, 519-520,
544-545) — both a missing row (None) and the empty string are falsy. -/
def splitLabels : Option (List Char) → List (List Char)
  | none => []
  | some s => if s = [] then [] else splitComma s

/-- Outcome reported by the add-category / add-payment-method handlers. -/
inductive AddResult where
  | added
  | duplicate
  | emptyError
deriving DecidableEq, Repr

/-- The add-category handler (src/app.py lines 517-530; the payment-method
handler, lines 542-555, is identical): reject an empty label, warn and
leave the stored value unchanged when the label is already in the split
list, otherwise append and store the comma-join. -/
def add_label (raw : Option (List Char)) (lab : List Char) :
    Option (List Char) × AddResult :=
  if lab = [] then (raw, AddResult.emptyError)
  else
    if lab ∈ splitLabels raw then (raw, AddResult.duplicate)
    else (some (joinComma (splitLabels raw ++ [lab])), AddResult.added)

theorem splitComma_ne_nil (s : List Char) : splitComma s ≠ [] := by
  induction s with
  | nil => simp [splitComma]
  | cons c rest ih =>
    by_cases hc : c = ','
    · simp [splitComma, hc]
    · simp only [splitComma, if_neg hc]
      cases hsp : splitComma rest <;> simp

theorem mem_splitComma_no_comma (s : List Char) : ∀ p ∈ splitComma s, ',' ∉ p := by
  induction s with
  | nil =>
    intro p hp
    simp only [splitComma, List.mem_singleton] at hp
    subst hp
    simp
  | cons c rest ih =>
    intro p hp
    by_cases hc : c = ','
    · simp only [splitComma, if_pos hc] at hp
      rcases List.mem_cons.mp hp with h | h
      · subst h; simp
      · exact ih p h
    · simp only [splitComma, if_neg hc] at hp
      cases hsp : splitComma rest with
      | nil => exact absurd hsp (splitComma_ne_nil rest)
      | cons q qs =>
        rw [hsp] at hp
        rcases List.mem_cons.mp hp with h | h
        · subst h
          intro hmem
          rcases List.mem_cons.mp hmem with h1 | h1
          · exact hc h1.symm
          · exact ih q (by rw [hsp]; exact List.mem_cons_self q qs) h1
        · exact ih p (by rw [hsp]; exact List.mem_cons_of_mem q h)

theorem splitComma_no_comma_eq (x : List Char) (hx : ',' ∉ x) : splitComma x = [x] := by
  induction x with
  | nil => rfl
  | cons c rest ih =>
    have hc : c ≠ ',' := fun h => hx (h ▸ List.mem_cons_self c rest)
    have hrest : ',' ∉ rest := fun h => hx (List.mem_cons_of_mem c h)
    simp only [splitComma, if_neg hc]
    rw [ih hrest]

theorem splitComma_append (x t : List Char) (hx : ',' ∉ x) :
    splitComma (x ++ ',' :: t) = x :: splitComma t := by
  induction x with
  | nil => simp [splitComma]
  | cons c rest ih =>
    have hc : c ≠ ',' := fun h => hx (h ▸ List.mem_cons_self c rest)
    have hrest : ',' ∉ rest := fun h => hx (List.mem_cons_of_mem c h)
    simp only [List.cons_append, splitComma, if_neg hc, List.append_eq]
    rw [ih hrest]

theorem joinComma_cons (x : List Char) (ys : List (List Char)) (h : ys ≠ []) :
    joinComma (x :: ys) = x ++ ',' :: joinComma ys := by
  cases ys with
  | nil => cases h rfl
  | cons y ys2 => rfl

theorem splitComma_joinComma (ls : List (List Char)) (x : List Char)
    (h : ∀ p ∈ ls, ',' ∉ p) :
    splitComma (joinComma (ls ++ [x])) = ls ++ splitComma x := by
  induction ls with
  | nil => simp [joinComma]
  | cons p ps ih =>
    rw [List.cons_append, joinComma_cons p (ps ++ [x]) (by simp),
      splitComma_append p _ (h p (List.mem_cons_self p ps)),
      ih (fun q hq => h q (List.mem_cons_of_mem p hq))]
    rfl

theorem joinComma_append_ne_nil (ls : List (List Char)) (x : List Char)
    (hx : x ≠ []) : joinComma (ls ++ [x]) ≠ [] := by
  cases ls with
  | nil => simpa [joinComma] using hx
  | cons p ps =>
    rw [List.cons_append, joinComma_cons p (ps ++ [x]) (by simp)]
    simp

theorem comma_mem_splitComma_length (lab : List Char) (h : ',' ∈ lab) :
    2 ≤ (splitComma lab).length := by
  induction lab with
  | nil => cases h
  | cons c rest ih =>
    by_cases hc : c = ','
    · simp only [splitComma, if_pos hc, List.length_cons]
      have h1 : splitComma rest ≠ [] := splitComma_ne_nil rest
      have h2 : 0 < (splitComma rest).length := List.length_pos.mpr h1
      omega
    · have hrest : ',' ∈ rest := by
        rcases List.mem_cons.mp h with h1 | h1
        · exact absurd h1.symm hc
        · exact h1
      simp only [splitComma, if_neg hc]
      cases hsp : splitComma rest with
      | nil => exact absurd hsp (splitComma_ne_nil rest)
      | cons q qs =>
        have h2 := ih hrest
        rw [hsp] at h2
        simpa using h2

theorem mem_splitLabels_no_comma (raw : Option (List Char)) :
    ∀ p ∈ splitLabels raw, ',' ∉ p := by
  cases raw with
  | none => intro p hp; cases hp
  | some s =>
    intro p hp
    by_cases hs : s = []
    · simp [splitLabels, hs] at hp
    · simp only [splitLabels, if_neg hs] at hp
      exact mem_splitComma_no_comma s p hp

theorem add_label_added (raw : Option (List Char)) (lab : List Char)
    (hne : lab ≠ []) (hmem : lab ∉ splitLabels raw) :
    (add_label raw lab).2 = AddResult.added ∧
    splitLabels (add_label raw lab).1 = splitLabels raw ++ splitComma lab := by
  have hstep : add_label raw lab
      = (some (joinComma (splitLabels raw ++ [lab])), AddResult.added) := by
    unfold add_label
    rw [if_neg hne, if_neg hmem]
  rw [hstep]
  refine ⟨rfl, ?_⟩
  have hsome : splitLabels (some (joinComma (splitLabels raw ++ [lab])))
      = if joinComma (splitLabels raw ++ [lab]) = [] then []
        else splitComma (joinComma (splitLabels raw ++ [lab])) := rfl
  rw [hsome, if_neg (joinComma_append_ne_nil _ lab hne)]
  exact splitComma_joinComma _ lab (mem_splitLabels_no_comma raw)

/-- C7 counterexample: with stored value `"a"`, the handler accepts the
label `"b,a"` (it is not equal to any existing label), but the stored
value becomes `"a,b,a"`, which reads back as the labels a, b, a — the new
label was not appended as one label at the end and the list is no longer
duplicate-free. -/
theorem add_label_comma_counterexample :
    (add_label (some ['a']) ['b', ',', 'a']).2 = AddResult.added ∧
    splitLabels (add_label (some ['a']) ['b', ',', 'a']).1 = [['a'], ['b'], ['a']] ∧
    ¬ (splitLabels (add_label (some ['a']) ['b', ',', 'a']).1).Nodup ∧
    splitLabels (add_label (some ['a']) ['b', ',', 'a']).1
      ≠ splitLabels (some ['a']) ++ [['b', ',', 'a']] := by
  decide

/-- C7 (amended): for labels that contain no comma, the stored value
behaves as an ordered duplicate-free list — a fresh label is appended at
the end (preserving uniqueness), and a label already present is reported
as a duplicate with the stored value unchanged. -/
theorem add_label_comma_free_spec (raw : Option (List Char)) (lab : List Char)
    (hne : lab ≠ []) (hnc : ',' ∉ lab) :
    (lab ∈ splitLabels raw → add_label raw lab = (raw, AddResult.duplicate)) ∧
    (lab ∉ splitLabels raw →
      (add_label raw lab).2 = AddResult.added ∧
      splitLabels (add_label raw lab).1 = splitLabels raw ++ [lab] ∧
      ((splitLabels raw).Nodup → (splitLabels (add_label raw lab).1).Nodup)) := by
  constructor
  · intro hmem
    unfold add_label
    rw [if_neg hne, if_pos hmem]
  · intro hmem
    have h := add_label_added raw lab hne hmem
    have heq : splitLabels (add_label raw lab).1 = splitLabels raw ++ [lab] := by
      rw [h.2, splitComma_no_comma_eq lab hnc]
    refine ⟨h.1, heq, fun hnd => ?_⟩
    rw [heq, List.nodup_append]
    exact ⟨hnd, List.nodup_singleton lab,
      fun a ha hb => hmem ((List.mem_singleton.mp hb) ▸ ha)⟩

/-- Witness for C7 (amended): adding the comma-free label b to the stored
value "a" appends it, making the list a, b. -/
theorem add_label_comma_free_spec_witness :
    (add_label (some ['a']) ['b']).2 = AddResult.added ∧
    splitLabels (add_label (some ['a']) ['b']).1 = [['a'], ['b']] := by
  have h := (add_label_comma_free_spec (some ['a']) ['b'] (by decide)
    (by decide)).2 (by decide)
  exact ⟨h.1, by rw [h.2.1]; decide⟩

/-- C9: the add-then-list round trip holds exactly for comma-free labels.
A fresh comma-free label reads back appended at the end; a label containing
a comma passes the uniqueness check (no stored label can equal it), is
accepted, and reads back as two or more separate labels. -/
theorem add_then_list_roundtrip (raw : Option (List Char)) (lab : List Char)
    (hne : lab ≠ []) :
    ( ',' ∉ lab → lab ∉ splitLabels raw →
      (add_label raw lab).2 = AddResult.added ∧
      splitLabels (add_label raw lab).1 = splitLabels raw ++ [lab]) ∧
    ( ',' ∈ lab →
      (add_label raw lab).2 = AddResult.added ∧
      splitLabels (add_label raw lab).1 = splitLabels raw ++ splitComma lab ∧
      2 ≤ (splitComma lab).length) := by
  constructor
  · intro hnc hmem
    have h := add_label_added raw lab hne hmem
    exact ⟨h.1, by rw [h.2, splitComma_no_comma_eq lab hnc]⟩
  · intro hc
    have hmem : lab ∉ splitLabels raw :=
      fun h => mem_splitLabels_no_comma raw lab h hc
    have h := add_label_added raw lab hne hmem
    exact ⟨h.1, h.2, comma_mem_splitComma_length lab hc⟩

/-- Witness for C9: adding "b,c" to the stored value "a" is accepted and
reads back as the three labels a, b, c. -/
theorem add_then_list_roundtrip_witness :
    (add_label (some ['a']) ['b', ',', 'c']).2 = AddResult.added ∧
    splitLabels (add_label (some ['a']) ['b', ',', 'c']).1 = [['a'], ['b'], ['c']] ∧
    2 ≤ (splitComma ['b', ',', 'c']).length := by
  have h := (add_then_list_roundtrip (some ['a']) ['b', ',', 'c'] (by decide)).2
    (by decide)
  exact ⟨h.1, by rw [h.2.1]; decide, h.2.2⟩

/-- Digit grouping of the Python comma format: digits in groups of three
from the right, joined by commas. -/
def chunk3 : List Char → List (List Char)
  | [] => []
  | [a] => [[a]]
  | [a, b] => [[a, b]]
  | a :: b :: c :: rest => [a, b, c] :: chunk3 rest

/-- Python comma-grouped formatting of a natural number. -/
def fmtNat (n : Nat) : String :=
  String.mk (List.intercalate [',']
    (((chunk3 (Nat.toDigits 10 n).reverse).map List.reverse).reverse))

/-- Python comma-grouped formatting of a (possibly negative) integer amount. -/
def fmtValor (v : Int) : String :=
  if v < 0 then "-" ++ fmtNat v.natAbs else fmtNat v.natAbs

def pad2 (n : Nat) : String :=
  if n < 10 then "0" ++ toString n else toString n

def pad4 (n : Nat) : String :=
  if n < 10 then "000" ++ toString n
  else if n < 100 then "00" ++ toString n
  else if n < 1000 then "0" ++ toString n
  else toString n

/-- Python `date.strftime('%Y-%m-%d')`. -/
def fmtDate (d : Date) : String :=
  pad4 d.year ++ "-" ++ pad2 d.month ++ "-" ++ pad2 d.day

/-- The unconditional event title built at the top of the loop body
(src/app.py line 199). -/
def baseTitle (t : Transaction) : String :=
  "¥" ++ fmtValor t.valor ++ " | " ++ t.categoria

/-- One calendar event dictionary (src/app.py lines 214-219). -/
structure CalendarEvent where
  title : String
  start : String
  «end» : String
  color : String
deriving DecidableEq, Repr

/-- The colour/title branches of the loop body (src/app.py lines 201-212):
`none` when `tipo` hits no branch, so neither colour nor prefixed title is
assigned in that iteration. -/
def eventPass (t : Transaction) (today : Date) : Option (String × String) :=
  if t.tipo = "receita" then some ("#34A853", "Entrada: " ++ baseTitle t)
  else if t.tipo = "despesa" then
    if t.pago then some ("#4285F4", "Pago: " ++ baseTitle t)
    else if dateLt t.data today then some ("#EA4335", "⚠ Atrasado: " ++ baseTitle t)
    else some ("#FBBC04", baseTitle t)
  else none

/-- Embedding of `get_transactions_by_month` (src/app.py lines 144-151): the monthly
rows ordered by date descending. -/
def get_transactions_by_month (db : List Transaction) (y m : Nat) :
    List Transaction :=
  sortByDateDesc (db.filter (fun t => inMonth y m t))

/-- The event loop of `get_calendar_events`, with the Python variable
`event_color` modelled as loop-carried state: it starts unbound (`none`),
keeps the value a previous iteration assigned, and an iteration that hits
no branch while it is still unbound is a NameError — modelled as `none`
for the whole call. -/
def get_calendar_events_go (today : Date) :
    List Transaction → Option String → List CalendarEvent →
      Option (List CalendarEvent)
  | [], _, acc => some acc.reverse
  | t :: rest, colorVar, acc =>
    match eventPass t today, colorVar with
    | some pr, _ =>
      get_calendar_events_go today rest (some pr.1)
        (⟨pr.2, fmtDate t.data, fmtDate t.data, pr.1⟩ :: acc)
    | none, some c =>
      get_calendar_events_go today rest (some c)
        (⟨baseTitle t, fmtDate t.data, fmtDate t.data, c⟩ :: acc)
    | none, none => none

/-- Embedding of `get_calendar_events` (src/app.py lines 192-220). -/
def get_calendar_events (db : List Transaction) (y m : Nat) (today : Date) :
    Option (List CalendarEvent) :=
  get_calendar_events_go today (get_transactions_by_month db y m) none []

theorem go_cons_eq (today : Date) (a : Transaction) (rest : List Transaction)
    (cv : Option String) (acc : List CalendarEvent) :
    get_calendar_events_go today (a :: rest) cv acc =
      match eventPass a today, cv with
      | some pr, _ =>
        get_calendar_events_go today rest (some pr.1)
          (⟨pr.2, fmtDate a.data, fmtDate a.data, pr.1⟩ :: acc)
      | none, some c =>
        get_calendar_events_go today rest (some c)
          (⟨baseTitle a, fmtDate a.data, fmtDate a.data, c⟩ :: acc)
      | none, none => none := rfl

theorem go_some_length (today : Date) (l : List Transaction) :
    ∀ (cv : Option String) (acc : List CalendarEvent),
    (∀ t ∈ l, (eventPass t today).isSome) →
    ∃ evs, get_calendar_events_go today l cv acc = some evs ∧
      evs.length = acc.length + l.length := by
  induction l with
  | nil =>
    intro cv acc _
    exact ⟨acc.reverse, rfl, by simp⟩
  | cons a rest ih =>
    intro cv acc h
    have ha := h a (List.mem_cons_self a rest)
    rcases hEp : eventPass a today with _ | pr
    · rw [hEp] at ha
      cases ha
    · obtain ⟨c, ti⟩ := pr
      obtain ⟨evs, heq, hlen⟩ := ih (some c)
        (⟨ti, fmtDate a.data, fmtDate a.data, c⟩ :: acc)
        (fun t ht => h t (List.mem_cons_of_mem a ht))
      refine ⟨evs, ?_, ?_⟩
      · rw [go_cons_eq, hEp]
        exact heq
      · rw [hlen]
        simp only [List.length_cons]
        omega

/-- Sample expense rows used to instantiate the aggregation theorems on
concrete stores. -/
def sampleExpense2 : Transaction :=
  ⟨3, ⟨2024, 6, 10⟩, 3000, "despesa", "transport", "", "card", true⟩

def sampleExpense3 : Transaction :=
  ⟨4, ⟨2024, 6, 12⟩, 1000, "despesa", "food", "", "cash", false⟩

/-- Witness for C5: on a store with food expenses 5000 and 1000, a
transport expense 3000 and an income row, the June 2024 breakdown is
food 6000 then transport 3000, and the totals sum to the expense total. -/
theorem expenses_by_category_correct_witness :
    ((get_expenses_by_category
        [sampleExpense, sampleIncome, sampleExpense2, sampleExpense3] 2024 6).map
      Prod.snd).sum
      = get_total_by_type
          [sampleExpense, sampleIncome, sampleExpense2, sampleExpense3] 2024 6 "despesa" ∧
    get_expenses_by_category
        [sampleExpense, sampleIncome, sampleExpense2, sampleExpense3] 2024 6
      = [("food", 6000), ("transport", 3000)] :=
  ⟨(expenses_by_category_correct
      [sampleExpense, sampleIncome, sampleExpense2, sampleExpense3] 2024 6).2.2.2,
   by decide⟩

/-- Transaction of a known kind whose iteration binds the colour
variable. -/
def staleKindTx : Transaction :=
  ⟨1, ⟨2024, 6, 2⟩, 100, "receita", "salary", "", "bank", false⟩

/-- Transaction whose kind is neither receita nor despesa. -/
def unknownKindTx : Transaction :=
  ⟨2, ⟨2024, 6, 1⟩, 50, "x", "other", "", "cash", false⟩

/-- C10 counterexample: a transaction of unknown kind does NOT always make
the function fail. Here the income row is iterated first (its date is
later), binds the colour variable to green, and the unknown-kind row then
silently reuses that stale green colour: the call returns an event list of
length two instead of failing. -/
theorem calendar_stale_color_counterexample :
    unknownKindTx.tipo ≠ "receita" ∧ unknownKindTx.tipo ≠ "despesa" ∧
    (get_calendar_events [staleKindTx, unknownKindTx] 2024 6 ⟨2024, 6, 20⟩).isSome
      = true ∧
    (get_calendar_events [staleKindTx, unknownKindTx] 2024 6 ⟨2024, 6, 20⟩).map
        (fun evs => evs.map (fun e => e.color))
      = some ["#34A853", "#34A853"] := by
  decide

/-- C10 (amended): when every stored row's kind is receita or despesa the
function returns exactly one event per row of the month; a row of any
other kind makes the function fail only while the colour variable is
still unbound — in particular when it heads the iteration. -/
theorem calendar_events_amended (db : List Transaction) (y m : Nat)
    (today : Date) :
    ((∀ t ∈ db, t.tipo = "receita" ∨ t.tipo = "despesa") →
      ∃ evs, get_calendar_events db y m today = some evs ∧
        evs.length = (db.filter (fun t => inMonth y m t)).length) ∧
    (∀ t rest, t.tipo ≠ "receita" → t.tipo ≠ "despesa" →
      get_calendar_events_go today (t :: rest) none [] = none) := by
  constructor
  · intro hkinds
    have hall : ∀ t ∈ get_transactions_by_month db y m,
        (eventPass t today).isSome := by
      intro t ht
      have hfil : t ∈ db.filter (fun t => inMonth y m t) := by
        simpa [get_transactions_by_month, sortByDateDesc] using ht
      have htdb : t ∈ db := (List.mem_filter.mp hfil).1
      rcases hkinds t htdb with h | h
      · simp [eventPass, h]
      · simp only [eventPass, h]
        split_ifs <;> simp
    obtain ⟨evs, heq, hlen⟩ :=
      go_some_length today (get_transactions_by_month db y m) none [] hall
    refine ⟨evs, heq, ?_⟩
    rw [hlen]
    simp [get_transactions_by_month, sortByDateDesc, List.length_insertionSort]
  · intro t rest h1 h2
    have hEp : eventPass t today = none := by
      simp [eventPass, h1, h2]
    rw [go_cons_eq, hEp]

/-- Witness for C10 (amended): on the all-known-kind sample store the
call succeeds with one event per June 2024 row. -/
theorem calendar_events_amended_witness :
    ∃ evs, get_calendar_events [sampleExpense, sampleIncome] 2024 6 ⟨2024, 6, 20⟩
        = some evs ∧
      evs.length
        = ([sampleExpense, sampleIncome].filter (fun t => inMonth 2024 6 t)).length :=
  (calendar_events_amended [sampleExpense, sampleIncome] 2024 6 ⟨2024, 6, 20⟩).1
    (by decide)

end Kakeibo
